import Mathlib

/-!
Verification of the widge-label labelling client (`widgelabel.py`).

The embedding models the in-memory pandas DataFrames of `LabellingClient`
as ordered association lists:

* `tags_df    : List (Uid × List Tag)` — rows `(uid, tags)` where `tags`
  is the Python list stored in the `tags` column;
* `sentiment_df : List (Uid × Str)` — rows `(uid, sentiment)`;
* `text_df    : List (Uid × Str)` — the immutable record store
  `(uid, text)`, positionally indexed as by `RangeIndex`.

Python strings are modelled as `List Char`; uids as `Nat`.
Each definition is translated from the corresponding method of
`LabellingClient`, keeping the source's names.
-/

abbrev Uid := Nat
abbrev Str := List Char
abbrev Tag := Str
abbrev TagsDf := List (Uid × List Tag)
abbrev SentDf := List (Uid × Str)
abbrev TextDf := List (Uid × Str)

/-- The pandas idiom `tags_df.loc[tags_df[uid_key] == uid].iloc[0].tags`:
the tags cell of the first row whose uid column equals `uid`; `none` when
no row matches (the source guards this access with
`uid in tags_df[uid_key].values`). -/
def first_tags_row (tdf : TagsDf) (uid : Uid) : Option (List Tag) :=
  ((tdf.filter (fun r => decide (r.1 = uid))).head?).map Prod.snd

/-- `LabellingClient.add_tag` (lines 198–210): take the first row's tag
list if the uid is present (appending `tag` only if absent), else start
with `[tag]`; drop every row for the uid; append the new row at the end. -/
def add_tag (tdf : TagsDf) (uid : Uid) (tag : Tag) : TagsDf :=
  let tmp_tags : List Tag :=
    match first_tags_row tdf uid with
    | some ts => if tag ∈ ts then ts else ts ++ [tag]
    | none => [tag]
  tdf.filter (fun r => decide (r.1 ≠ uid)) ++ [(uid, tmp_tags)]

/-- `LabellingClient.remove_tag` (lines 212–223): if the uid has a row,
remove `tag` from its first row's list (Python `list.remove`, guarded by
`tag in tmp_tags`), drop every row for the uid, and re-append the row only
when the remaining list is non-empty; if the uid has no row, do nothing. -/
def remove_tag (tdf : TagsDf) (uid : Uid) (tag : Tag) : TagsDf :=
  match first_tags_row tdf uid with
  | some ts =>
      let tmp_tags := if tag ∈ ts then ts.erase tag else ts
      let rest := tdf.filter (fun r => decide (r.1 ≠ uid))
      if tmp_tags = [] then rest else rest ++ [(uid, tmp_tags)]
  | none => tdf

/-- `LabellingClient.check_tag` (lines 225–231). -/
def check_tag (tdf : TagsDf) (uid : Uid) (tag : Tag) : Bool :=
  match first_tags_row tdf uid with
  | some ts => decide (tag ∈ ts)
  | none => false

/-- The `tmp_tags` value that `add_tag` puts in its new row. -/
def new_tags_row (tdf : TagsDf) (uid : Uid) (tag : Tag) : List Tag :=
  match first_tags_row tdf uid with
  | some ts => if tag ∈ ts then ts else ts ++ [tag]
  | none => [tag]

/-- One call to `add_tag` or `remove_tag` (with its tag argument). -/
inductive TagOp where
  | add (t : Tag)
  | remove (t : Tag)
deriving DecidableEq

def apply_tag_op (tdf : TagsDf) (uid : Uid) : TagOp → TagsDf
  | TagOp.add t => add_tag tdf uid t
  | TagOp.remove t => remove_tag tdf uid t

/-- Replay a sequence of `add_tag`/`remove_tag` calls on one uid. -/
def apply_tag_ops (tdf : TagsDf) (uid : Uid) (ops : List TagOp) : TagsDf :=
  ops.foldl (fun d op => apply_tag_op d uid op) tdf

/-- The spec's plain-set replay of one operation: add inserts if absent,
remove deletes if present (sets modelled as duplicate-free lists). -/
def plain_set_step (s : List Tag) : TagOp → List Tag
  | TagOp.add t => if t ∈ s then s else s ++ [t]
  | TagOp.remove t => s.erase t

/-- The spec's plain-set replay of a whole operation sequence. -/
def replay_ops (s : List Tag) (ops : List TagOp) : List Tag :=
  ops.foldl plain_set_step s

/-- The tags table holding exactly the set `s` for `uid`: no row at all
when `s` is empty, else the single row `(uid, s)`. -/
def state_of (uid : Uid) (s : List Tag) : TagsDf :=
  if s = [] then [] else [(uid, s)]

/-- The sentiment upsert performed by the callback `f` inside
`create_sent_select_subpanel_text_part` (lines 273–277): build the new
row, drop every row for the uid when the uid column contains it, append
the new row at the end. -/
def set_sentiment (sdf : SentDf) (uid : Uid) (v : Str) : SentDf :=
  let sdf' :=
    if uid ∈ sdf.map Prod.fst then sdf.filter (fun r => decide (r.1 ≠ uid)) else sdf
  sdf' ++ [(uid, v)]

/-- The callback `f` with its Python truthiness guard `if sentiment:`:
a `None` or empty selection leaves the sentiment table unchanged. -/
def sentiment_callback (sdf : SentDf) (uid : Uid) (sentiment : Option Str) : SentDf :=
  match sentiment with
  | some v => if v = [] then sdf else set_sentiment sdf uid v
  | none => sdf

/-- `on_del_clicked` (line 142): drop every sentiment row for the uid. -/
def on_del_clicked (sdf : SentDf) (uid : Uid) : SentDf :=
  sdf.filter (fun r => decide (r.1 ≠ uid))

/-- The default `sentiment_options` of the constructor (line 27). -/
def sentiment_options : List Str :=
  ["positive".toList, "slightly positive".toList,
   "slightly negative".toList, "negative".toList]

/-- `set_current_variables` (lines 255–259): `current_sentiment` is the
`.values` array of every sentiment cell matching the uid when
`already_labeled`, else `None`. -/
def current_sentiment (sdf : SentDf) (uid : Uid) : Option (List Str) :=
  if uid ∈ sdf.map Prod.fst then
    some ((sdf.filter (fun r => decide (r.1 = uid))).map Prod.snd)
  else none

/-- Sentiment tables reachable from the empty startup table by the two
sentiment mutations of the widget. -/
inductive SentReachable : SentDf → Prop where
  | empty : SentReachable []
  | set (sdf : SentDf) (uid : Uid) (v : Str) :
      SentReachable sdf → SentReachable (set_sentiment sdf uid v)
  | reset (sdf : SentDf) (uid : Uid) :
      SentReachable sdf → SentReachable (on_del_clicked sdf uid)

/-- A write of one of the two CSV files. -/
inductive SaveEvent where
  | labels
  | tags
deriving DecidableEq

/-- `save_all` (lines 454–456): `save_label_data()` then `save_tags_data()`. -/
def save_all_events : List SaveEvent := [SaveEvent.labels, SaveEvent.tags]

/-- `do_auto_save` (lines 450–452): `save_all` when the flag is set. -/
def do_auto_save (auto_save : Bool) : List SaveEvent :=
  if auto_save then save_all_events else []

/-- `add_tag` with the file writes it performs (line 210). -/
def add_tag_op (auto_save : Bool) (tdf : TagsDf) (uid : Uid) (tag : Tag) :
    TagsDf × List SaveEvent :=
  (add_tag tdf uid tag, do_auto_save auto_save)

/-- `remove_tag` with the file writes it performs (line 223). -/
def remove_tag_op (auto_save : Bool) (tdf : TagsDf) (uid : Uid) (tag : Tag) :
    TagsDf × List SaveEvent :=
  (remove_tag tdf uid tag, do_auto_save auto_save)

/-- The sentiment-select callback with the file writes it performs
(lines 278–281): `if auto_save: save_label_data()` — only the label file. -/
def set_sentiment_op (auto_save : Bool) (sdf : SentDf) (uid : Uid) (v : Str) :
    SentDf × List SaveEvent :=
  (set_sentiment sdf uid v, if auto_save then [SaveEvent.labels] else [])

/-- `on_del_clicked` with the file writes it performs (lines 143–146):
`if auto_save: save_label_data()` — only the label file. -/
def on_del_clicked_op (auto_save : Bool) (sdf : SentDf) (uid : Uid) :
    SentDf × List SaveEvent :=
  (on_del_clicked sdf uid, if auto_save then [SaveEvent.labels] else [])

/-- `on_next_clicked` (line 126): `current_text_index += 1`. -/
def on_next_clicked (current_text_index : Int) : Int := current_text_index + 1

/-- `on_prev_clicked` (line 131): `current_text_index -= 1`. -/
def on_prev_clicked (current_text_index : Int) : Int := current_text_index - 1

/-- `df.iloc[i]` for an integer `i` (line 242): non-negative positions
index from the front, negative positions index from the end (numpy
semantics), anything past either end raises `IndexError` (`none`). -/
def iloc_lookup {α : Type} (df : List α) (i : Int) : Option α :=
  let j := if i < 0 then (df.length : Int) + i else i
  if 0 ≤ j ∧ j < (df.length : Int) then df.get? j.toNat else none

/-- `find_text_index_by_uid` (lines 461–463):
`text_df.index[text_df[uid_key] == uid].tolist()[0]` — the positions (of
the default `RangeIndex`) whose row matches the uid, then element `[0]`,
which raises `IndexError` (`none`) when no row matches. -/
def find_text_index_by_uid (text_df : TextDf) (uid : Uid) : Option Nat :=
  ((List.range text_df.length).filter
    (fun i => decide ((text_df.get? i).map Prod.fst = some uid))).head?

/-- The `start_index == None` branch of `__init__` (lines 93–99): if the
sentiment table is non-empty, the cursor is `find_text_index_by_uid` of
the uid in its last row, else `0`. -/
def initial_cursor (sentiment_df : SentDf) (text_df : TextDf) : Option Nat :=
  match sentiment_df.getLast? with
  | some r => find_text_index_by_uid text_df r.1
  | none => some 0

/-- Join strings with a separator, as Python `", ".join`-style rendering
inside `repr` of a list. -/
def sep_join (sep : Str) : List Str → Str
  | [] => []
  | [x] => x
  | x :: y :: rest => x ++ sep ++ sep_join sep (y :: rest)

/-- Python's `str()` of a list of strings, the value pandas `to_csv`
writes into the `tags` cell: `['a', 'b']` with single quotes. -/
def py_list_repr (ts : List Tag) : Str :=
  '[' :: sep_join [',', ' '] (ts.map (fun t => Char.ofNat 39 :: t ++ [Char.ofNat 39])) ++ [']']

/-- `save_tags_data` (lines 438–442): `tags_df.to_csv` stringifies each
tags cell; the file rows keep the uid and hold the repr string. -/
def save_tags_data (tdf : TagsDf) : List (Uid × Str) :=
  tdf.map (fun r => (r.1, py_list_repr r.2))

/-- `load_tags_data` (lines 444–445): `pd.read_csv` yields the tags cells
back as the raw strings written in the file — it performs no parsing of
the stringified lists. -/
def load_tags_data (file_rows : List (Uid × Str)) : List (Uid × Str) :=
  file_rows

/-- Does `needle` occur at the start of `hay`? -/
def starts_with : Str → Str → Bool
  | [], _ => true
  | _ :: _, [] => false
  | n :: ns, h :: hs => decide (n = h) && starts_with ns hs

/-- Python's `needle in hay` on strings: substring containment. -/
def str_contains (hay needle : Str) : Bool :=
  if starts_with needle hay then true
  else
    match hay with
    | [] => false
    | _ :: t => str_contains t needle

/-- `check_tag` as it executes on a tags table that came from
`load_tags_data`: the cell is a Python string, so `tag in tmp_tags` is a
substring test. -/
def check_tag_loaded (ldf : List (Uid × Str)) (uid : Uid) (tag : Tag) : Bool :=
  match ((ldf.filter (fun r => decide (r.1 = uid))).head?).map Prod.snd with
  | some cell => str_contains cell tag
  | none => false

/-- `"<span style=\"color:{}\">**".format(emphasis_color)` (line 401). -/
def emph_open (emphasis_color : Str) : Str :=
  "<span style=\"color:".toList ++ emphasis_color ++ "\">**".toList

/-- The closing markup `"**</span>"` (line 401). -/
def emph_close : Str := "**</span>".toList

/-- `re.search(regex, ·)` is modelled as an oracle returning
`(match.start(), match.end())` of the leftmost match, `none` when the
pattern does not match. Keeping the whole span abstract (rather than
deriving `match.end()` from a pattern length) covers regex semantics such
as alternation, repetition and zero-width matches, where the match width
varies and may be zero. -/
abbrev ReSearch := Str → Option (Nat × Nat)

/-- The oracle instance for a pattern without regex metacharacters: on
such a pattern `re.search` returns the first substring occurrence, whose
span is `(i, i + pat.length)`. The empty pattern matches `(0, 0)`, as the
empty regex does. -/
def literal_search (pat s : Str) : Option (Nat × Nat) :=
  if starts_with pat s then some (0, pat.length)
  else
    match s with
    | [] => none
    | _ :: t => (literal_search pat t).map (fun p => (p.1 + 1, p.2 + 1))

/-- `add_match_formatting` (lines 386–402), over a `re.search` oracle.
The recursion is fuelled: Python bounds the recursion depth, raising
`RecursionError` (`none`) when it is exhausted. When a match is found and
the text after `match.end()` is non-empty, `str[start:end]` is wrapped
and `str[end:]` formatted recursively; otherwise the string is returned
unchanged — in particular a match that reaches the end of the string is
left unwrapped, and a match with `end() = 0` recurses on the unchanged
string. -/
def add_match_formatting (emphasis_color : Str) (search : ReSearch) :
    Nat → Str → Option Str
  | 0, _ => none
  | fuel + 1, s =>
    match search s with
    | none => some s
    | some (b, e) =>
      if 0 < (s.drop e).length then
        (add_match_formatting emphasis_color search fuel (s.drop e)).map
          (fun rest =>
            s.take b ++ emph_open emphasis_color
              ++ (s.drop b).take (e - b) ++ emph_close ++ rest)
      else some s

/-- Modelled from the spec: the iterative scan of §9 that "finds all
non-overlapping matches of the highlight pattern and wraps each in
emphasis markup, producing a single output string" — every match is
wrapped, including one ending at the end of the input (fuelled the same
way for comparability). -/
def spec_format_all (emphasis_color : Str) (search : ReSearch) :
    Nat → Str → Option Str
  | 0, _ => none
  | fuel + 1, s =>
    match search s with
    | none => some s
    | some (b, e) =>
      (spec_format_all emphasis_color search fuel (s.drop e)).map
        (fun rest =>
          s.take b ++ emph_open emphasis_color
            ++ (s.drop b).take (e - b) ++ emph_close ++ rest)

/-- `out` is `s` decomposed into non-overlapping leftmost-match segments
with every match wrapped in emphasis markup and the non-matching segments
unchanged — except that a final match ending exactly at the end of the
input is left unwrapped. -/
inductive Wrapped (emphasis_color : Str) (search : ReSearch) : Str → Str → Prop where
  | nomatch (s : Str) : search s = none → Wrapped emphasis_color search s s
  | final (s : Str) (b e : Nat) : search s = some (b, e) →
      (s.drop e).length = 0 → Wrapped emphasis_color search s s
  | step (s : Str) (b e : Nat) (out : Str) : search s = some (b, e) →
      0 < (s.drop e).length →
      Wrapped emphasis_color search (s.drop e) out →
      Wrapped emphasis_color search s
        (s.take b ++ emph_open emphasis_color
          ++ (s.drop b).take (e - b) ++ emph_close ++ out)

lemma first_tags_row_single (uid : Uid) (s : List Tag) :
    first_tags_row [(uid, s)] uid = some s := by
  simp [first_tags_row]

lemma apply_tag_op_state_of (uid : Uid) (s : List Tag) (op : TagOp) :
    apply_tag_op (state_of uid s) uid op = state_of uid (plain_set_step s op) := by
  cases op with
  | add t =>
      by_cases hs : s = []
      · subst hs
        simp [apply_tag_op, add_tag, first_tags_row, state_of, plain_set_step]
      · by_cases ht : t ∈ s
        · simp [apply_tag_op, add_tag, first_tags_row_single, hs, ht, state_of,
            plain_set_step]
        · simp [apply_tag_op, add_tag, first_tags_row_single, hs, ht, state_of,
            plain_set_step]
  | remove t =>
      by_cases hs : s = []
      · subst hs
        simp [apply_tag_op, remove_tag, first_tags_row, state_of, plain_set_step]
      · by_cases ht : t ∈ s
        · by_cases he : s.erase t = [] <;>
            simp [apply_tag_op, remove_tag, first_tags_row_single, hs, ht, he,
              state_of, plain_set_step]
        · simp [apply_tag_op, remove_tag, first_tags_row_single, hs, ht,
            List.erase_of_not_mem ht, state_of, plain_set_step]

lemma apply_tag_ops_state_of (uid : Uid) (ops : List TagOp) :
    ∀ s : List Tag,
      apply_tag_ops (state_of uid s) uid ops = state_of uid (replay_ops s ops) := by
  induction ops with
  | nil => intro s; rfl
  | cons op rest ih =>
      intro s
      show apply_tag_ops (apply_tag_op (state_of uid s) uid op) uid rest
          = state_of uid (replay_ops (plain_set_step s op) rest)
      rw [apply_tag_op_state_of]
      exact ih (plain_set_step s op)

/-- C1: for every single id and every finite sequence of
`add_tag`/`remove_tag` calls on that id starting from an empty tags table,
the resulting tags table holds for that id exactly the set obtained by
replaying the same operations on a plain set (add inserts if absent,
remove deletes if present), and it has a row for that id iff that set is
non-empty. -/
theorem tags_replay_equiv (uid : Uid) (ops : List TagOp) :
    apply_tag_ops [] uid ops
      = if replay_ops [] ops = [] then []
        else [(uid, replay_ops [] ops)] := by
  have h := apply_tag_ops_state_of uid ops []
  simpa [state_of] using h

lemma map_fst_filter_ne {α : Type} (sdf : List (Uid × α)) (uid : Uid) :
    (sdf.filter (fun r => decide (r.1 ≠ uid))).map Prod.fst
      = (sdf.map Prod.fst).filter (fun x => decide (x ≠ uid)) := by
  induction sdf with
  | nil => rfl
  | cons r t ih =>
      simp only [List.map_cons, List.filter_cons]
      by_cases h : r.1 = uid
      · rw [if_neg (by simp [h]), if_neg (by simp [h])]
        exact ih
      · rw [if_pos (by simp [h]), if_pos (by simp [h]), List.map_cons, ih]

/-- C4: every sentiment table reachable from the empty startup table by
the widget's mutations (the sentiment-select upsert and the reset-current
delete) has each uid in at most one row; in particular both operations
preserve uid-uniqueness. -/
theorem sentiment_uid_unique (sdf : SentDf) (h : SentReachable sdf) :
    (sdf.map Prod.fst).Nodup := by
  induction h with
  | empty => simp
  | set sdf uid v _ ih =>
      unfold set_sentiment
      by_cases hm : uid ∈ sdf.map Prod.fst
      · rw [if_pos hm, List.map_append, map_fst_filter_ne]
        refine List.Nodup.append (ih.filter _) (List.nodup_singleton uid) ?_
        intro a ha hb
        rcases List.mem_singleton.mp hb with rfl
        have hne := (List.mem_filter.mp ha).2
        simp at hne
      · rw [if_neg hm, List.map_append]
        refine List.Nodup.append ih (List.nodup_singleton uid) ?_
        intro a ha hb
        rcases List.mem_singleton.mp hb with rfl
        exact hm ha
  | reset sdf uid _ ih =>
      unfold on_del_clicked
      rw [map_fst_filter_ne]
      exact ih.filter _

theorem sentiment_uid_unique_witness :
    ((set_sentiment (set_sentiment [] 0 "positive".toList) 0 "negative".toList).map
      Prod.fst).Nodup :=
  sentiment_uid_unique _
    (SentReachable.set _ _ _ (SentReachable.set _ _ _ SentReachable.empty))

lemma current_sentiment_append_only (sdf' : SentDf) (uid : Uid) (v : Str)
    (h : ∀ r ∈ sdf', r.1 ≠ uid) :
    current_sentiment (sdf' ++ [(uid, v)]) uid = some [v] := by
  have hmem : uid ∈ (sdf' ++ [(uid, v)]).map Prod.fst := by simp
  have hfil : sdf'.filter (fun r => decide (r.1 = uid)) = [] :=
    List.filter_eq_nil_iff.mpr (by intro a ha; simpa using h a ha)
  simp [current_sentiment, hmem, List.filter_append, hfil]

/-- C5: selecting any sentiment `v` of the configured option set for a
uid and immediately reading that uid's sentiment back (as
`set_current_variables` does) yields exactly `v` — concretely, the
`.values` array read back is the one-element array `[v]`. -/
theorem set_then_get_sentiment (sdf : SentDf) (uid : Uid) (v : Str)
    (hv : v ∈ sentiment_options) :
    current_sentiment (sentiment_callback sdf uid (some v)) uid = some [v] := by
  have hv' : ¬v = [] := by
    simp only [sentiment_options, List.mem_cons, List.not_mem_nil, or_false] at hv
    rcases hv with h | h | h | h <;> subst h <;> decide
  show current_sentiment (if v = [] then sdf else set_sentiment sdf uid v) uid = some [v]
  rw [if_neg hv']
  unfold set_sentiment
  by_cases hm : uid ∈ sdf.map Prod.fst
  · rw [if_pos hm]
    refine current_sentiment_append_only _ _ _ ?_
    intro r hr
    simpa using (List.mem_filter.mp hr).2
  · rw [if_neg hm]
    refine current_sentiment_append_only _ _ _ ?_
    intro r hr hcontra
    exact hm (List.mem_map.mpr ⟨r, hr, hcontra⟩)

theorem set_then_get_sentiment_witness :
    current_sentiment (sentiment_callback [] 7 (some "positive".toList)) 7
      = some ["positive".toList] :=
  set_then_get_sentiment [] 7 _ (by decide)

lemma filter_ne_of_not_mem {α : Type} (sdf : List (Uid × α)) (uid : Uid)
    (h : uid ∉ sdf.map Prod.fst) :
    sdf.filter (fun r => decide (r.1 ≠ uid)) = sdf := by
  apply List.filter_eq_self.mpr
  intro r hr
  simp only [decide_eq_true_eq]
  intro hc
  exact h (List.mem_map.mpr ⟨r, hr, hc⟩)

/-- C10: every upsert deletes the rows for the id first and appends the
new row at the end of the table — `set_sentiment` and `add_tag`
unconditionally, `remove_tag` whenever the remaining tag list is
non-empty — so the last row of the sentiment table after a set always
holds the sentiment just set, the property the startup
most-recently-labeled lookup relies on. -/
theorem upsert_filter_append_last (sdf : SentDf) (tdf : TagsDf) (uid : Uid)
    (v : Str) (tag : Tag) :
    set_sentiment sdf uid v = sdf.filter (fun r => decide (r.1 ≠ uid)) ++ [(uid, v)]
    ∧ (set_sentiment sdf uid v).getLast? = some (uid, v)
    ∧ add_tag tdf uid tag
        = tdf.filter (fun r => decide (r.1 ≠ uid)) ++ [(uid, new_tags_row tdf uid tag)]
    ∧ (add_tag tdf uid tag).getLast? = some (uid, new_tags_row tdf uid tag)
    ∧ ∀ ts, first_tags_row tdf uid = some ts →
        (if tag ∈ ts then ts.erase tag else ts) ≠ [] →
        remove_tag tdf uid tag
          = tdf.filter (fun r => decide (r.1 ≠ uid))
            ++ [(uid, if tag ∈ ts then ts.erase tag else ts)]
        ∧ (remove_tag tdf uid tag).getLast?
            = some (uid, if tag ∈ ts then ts.erase tag else ts) := by
  have hset : set_sentiment sdf uid v
      = sdf.filter (fun r => decide (r.1 ≠ uid)) ++ [(uid, v)] := by
    unfold set_sentiment
    by_cases hm : uid ∈ sdf.map Prod.fst
    · rw [if_pos hm]
    · rw [if_neg hm, filter_ne_of_not_mem sdf uid hm]
  have hadd : add_tag tdf uid tag
      = tdf.filter (fun r => decide (r.1 ≠ uid)) ++ [(uid, new_tags_row tdf uid tag)] := rfl
  refine ⟨hset, ?_, hadd, ?_, ?_⟩
  · rw [hset, List.getLast?_concat]
  · rw [hadd, List.getLast?_concat]
  · intro ts hts hne
    have hrem : remove_tag tdf uid tag
        = tdf.filter (fun r => decide (r.1 ≠ uid))
          ++ [(uid, if tag ∈ ts then ts.erase tag else ts)] := by
      unfold remove_tag
      rw [hts]
      simp only [if_neg hne]
    exact ⟨hrem, by rw [hrem, List.getLast?_concat]⟩

theorem upsert_filter_append_last_witness :
    remove_tag [(0, [['a'], ['b']])] 0 ['a']
      = [(0, [['a'], ['b']])].filter (fun r => decide (r.1 ≠ 0))
        ++ [(0, if ['a'] ∈ [['a'], ['b']] then [['a'], ['b']].erase ['a']
                else [['a'], ['b']])] :=
  ((upsert_filter_append_last [] [(0, [['a'], ['b']])] 0 "positive".toList
    ['a']).2.2.2.2 [['a'], ['b']] (by decide) (by decide)).1

/-- C7: `find_text_index_by_uid` on a uid that no record has fails (the
`[0]` access raises, modelled `none`) rather than returning an index. -/
theorem find_index_not_found (text_df : TextDf) (uid : Uid)
    (h : uid ∉ text_df.map Prod.fst) :
    find_text_index_by_uid text_df uid = none := by
  unfold find_text_index_by_uid
  have hnil : (List.range text_df.length).filter
      (fun i => decide ((text_df.get? i).map Prod.fst = some uid)) = [] := by
    apply List.filter_eq_nil_iff.mpr
    intro i hi
    simp only [decide_eq_true_eq]
    intro hc
    cases hg : text_df.get? i with
    | none => rw [hg] at hc; simp at hc
    | some r =>
        rw [hg] at hc
        simp at hc
        exact h (List.mem_map.mpr ⟨r, List.get?_mem hg, hc⟩)
  rw [hnil]
  rfl

theorem find_index_not_found_witness :
    find_text_index_by_uid [(0, ['t'])] 1 = none :=
  find_index_not_found [(0, ['t'])] 1 (by decide)

lemma find_text_index_points_at (text_df : TextDf) (uid : Uid) (k : Nat)
    (h : find_text_index_by_uid text_df uid = some k) :
    (text_df.get? k).map Prod.fst = some uid := by
  unfold find_text_index_by_uid at h
  cases hf : (List.range text_df.length).filter
      (fun i => decide ((text_df.get? i).map Prod.fst = some uid)) with
  | nil => rw [hf] at h; simp at h
  | cons a t =>
      rw [hf] at h
      simp only [List.head?_cons, Option.some_inj] at h
      have ha : a ∈ (List.range text_df.length).filter
          (fun i => decide ((text_df.get? i).map Prod.fst = some uid)) := by
        rw [hf]; exact List.mem_cons_self a t
      have hp := (List.mem_filter.mp ha).2
      simp only [decide_eq_true_eq] at hp
      rwa [h] at hp

/-- C8: with no explicit start index, the initial cursor is `0` when the
sentiment table is empty, and otherwise is the result of looking up the
record-store index of the uid in the sentiment table's last row (the most
recently labeled uid) — a lookup that, when it returns an index, points
at a record with exactly that uid. -/
theorem initial_cursor_spec (text_df : TextDf) (sentiment_df : SentDf) :
    (sentiment_df = [] → initial_cursor sentiment_df text_df = some 0)
    ∧ ∀ u v, sentiment_df.getLast? = some (u, v) →
        initial_cursor sentiment_df text_df = find_text_index_by_uid text_df u
        ∧ ∀ k, find_text_index_by_uid text_df u = some k →
            (text_df.get? k).map Prod.fst = some u := by
  constructor
  · intro h; subst h; rfl
  · intro u v h
    constructor
    · unfold initial_cursor
      rw [h]
    · intro k hk
      exact find_text_index_points_at _ _ _ hk

theorem initial_cursor_spec_witness :
    initial_cursor [(5, "positive".toList)] [(5, ['t'])]
      = find_text_index_by_uid [(5, ['t'])] 5 :=
  ((initial_cursor_spec [(5, ['t'])] [(5, "positive".toList)]).2
    5 "positive".toList rfl).1

/-- Refutes C6 as stated: on a one-record store, retreating from cursor 0
yields -1, which lies outside [0, 1), yet the next record lookup succeeds
— pandas `iloc` resolves negative positions from the end. -/
theorem nav_retreat_wraps :
    on_prev_clicked 0 = -1
    ∧ ¬(0 ≤ on_prev_clicked 0)
    ∧ iloc_lookup [(0, ['t'])] (on_prev_clicked 0) = some (0, ['t']) := by decide

/-- C6 amended: `advance`/`retreat` change the cursor by exactly ±1 with
no bounds checking, and the record lookup at cursor `c` fails iff
`c ≥ n` or `c < -n` (for `n` records): advancing past the last record
fails on the next lookup, while a cursor in `[-n, 0)` wraps around and
returns a record from the end. -/
theorem nav_amended (text_df : TextDf) (c : Int) :
    on_next_clicked c = c + 1
    ∧ on_prev_clicked c = c - 1
    ∧ (iloc_lookup text_df c = none
        ↔ c < -(text_df.length : Int) ∨ (text_df.length : Int) ≤ c) := by
  refine ⟨rfl, rfl, ?_⟩
  by_cases hneg : c < 0
  · simp only [iloc_lookup, hneg, if_true]
    by_cases hin : 0 ≤ (text_df.length : Int) + c
    · have hlt : (text_df.length : Int) + c < (text_df.length : Int) := by omega
      rw [if_pos ⟨hin, hlt⟩]
      constructor
      · intro hnone
        rw [List.get?_eq_none] at hnone
        omega
      · intro hor
        exfalso
        omega
    · rw [if_neg (fun hc => hin hc.1)]
      constructor
      · intro _
        omega
      · intro _
        rfl
  · simp only [iloc_lookup, hneg, if_false]
    by_cases hin : c < (text_df.length : Int)
    · rw [if_pos ⟨by omega, hin⟩]
      constructor
      · intro hnone
        rw [List.get?_eq_none] at hnone
        omega
      · intro hor
        exfalso
        omega
    · rw [if_neg (by omega)]
      constructor
      · intro _
        omega
      · intro _
        rfl

/-- Refutes C3 as stated: with the autosave flag on, setting a sentiment
writes only the label file — no tags save happens, so not every mutating
operation is followed by saving both tables. -/
theorem autosave_sentiment_saves_labels_only :
    (set_sentiment_op true [] 0 "positive".toList).2 = [SaveEvent.labels]
    ∧ SaveEvent.tags ∉ (set_sentiment_op true [] 0 "positive".toList).2 := by decide

/-- C3 amended: with the autosave flag on, `add_tag` and `remove_tag` are
followed by saving both the sentiment table and the tags table (via
`do_auto_save`/`save_all`), while setting a sentiment and clearing a
sentiment save only the sentiment table. -/
theorem autosave_events_amended (auto_save : Bool) (tdf : TagsDf) (sdf : SentDf)
    (uid : Uid) (v : Str) (tag : Tag) (h : auto_save = true) :
    (add_tag_op auto_save tdf uid tag).2 = [SaveEvent.labels, SaveEvent.tags]
    ∧ (remove_tag_op auto_save tdf uid tag).2 = [SaveEvent.labels, SaveEvent.tags]
    ∧ (set_sentiment_op auto_save sdf uid v).2 = [SaveEvent.labels]
    ∧ (on_del_clicked_op auto_save sdf uid).2 = [SaveEvent.labels] := by
  subst h
  exact ⟨rfl, rfl, rfl, rfl⟩

theorem autosave_events_amended_witness :
    (add_tag_op true [] 0 ['a']).2 = [SaveEvent.labels, SaveEvent.tags] :=
  (autosave_events_amended true [] [] 0 "positive".toList ['a'] rfl).1

/-- C2 fails on the code: after `add_tag(0, "ab")` the save/load round
trip returns the tags cell as the literal Python string `['ab']` (the
`str()` of the list that `to_csv` wrote), not the tag set; the loaded
mapping even reports the never-added tag `[` as present, because `in` on
the loaded cell is a substring test. -/
theorem tags_roundtrip_eval :
    add_tag [] 0 ['a', 'b'] = [(0, [['a', 'b']])]
    ∧ check_tag (add_tag [] 0 ['a', 'b']) 0 ['['] = false
    ∧ load_tags_data (save_tags_data (add_tag [] 0 ['a', 'b']))
        = [(0, ['[', Char.ofNat 39, 'a', 'b', Char.ofNat 39, ']'])]
    ∧ check_tag_loaded (load_tags_data (save_tags_data (add_tag [] 0 ['a', 'b'])))
        0 ['['] = true := by decide

/-- Refutes C9 as stated: for the pattern `a` (a regex without
metacharacters, whose `re.search` oracle is `literal_search`) and input
`a`, the single match is not wrapped — `add_match_formatting` returns the
input unchanged because the text after the match is empty, while the
spec's scan wraps every match. -/
theorem fmt_final_match_unwrapped :
    literal_search ['a'] ['a'] = some (0, 1)
    ∧ add_match_formatting "blue".toList (literal_search ['a']) 2 ['a'] = some ['a']
    ∧ spec_format_all "blue".toList (literal_search ['a']) 2 ['a']
        = some (emph_open "blue".toList ++ ['a'] ++ emph_close)
    ∧ add_match_formatting "blue".toList (literal_search ['a']) 2 ['a']
        ≠ spec_format_all "blue".toList (literal_search ['a']) 2 ['a'] := by decide

lemma add_match_formatting_succ (emphasis_color : Str) (search : ReSearch)
    (fuel : Nat) (s : Str) :
    add_match_formatting emphasis_color search (fuel + 1) s
      = match search s with
        | none => some s
        | some (b, e) =>
          if 0 < (s.drop e).length then
            (add_match_formatting emphasis_color search fuel (s.drop e)).map
              (fun rest =>
                s.take b ++ emph_open emphasis_color
                  ++ (s.drop b).take (e - b) ++ emph_close ++ rest)
          else some s := rfl

/-- A `re.search` oracle that yields a zero-width match at position 0 —
as the real `re.search` does for the default `emphasis_regex=""`, or for
`"x*"` on text not starting with `x` — makes the source recurse on the
unchanged string until the recursion limit: the model returns `none` for
every fuel on non-empty input. -/
lemma add_match_formatting_zero_width_diverges (emphasis_color : Str) :
    ∀ fuel (s : Str), s ≠ [] →
      add_match_formatting emphasis_color (fun _ => some (0, 0)) fuel s = none := by
  intro fuel
  induction fuel with
  | zero => intro s _; rfl
  | succ f ih =>
      intro s hs
      rw [add_match_formatting_succ]
      dsimp only
      rw [if_pos (by simpa using List.length_pos.mpr hs), List.drop_zero, ih s hs]
      rfl

lemma literal_search_end_pos (pat : Str) (hp : pat ≠ []) :
    ∀ t b e, literal_search pat t = some (b, e) → 0 < e := by
  intro t
  induction t with
  | nil =>
      intro b e h
      cases pat with
      | nil => exact absurd rfl hp
      | cons c cs =>
          have hun : literal_search (c :: cs) [] = none := rfl
          rw [hun] at h
          exact Option.noConfusion h
  | cons c t ih =>
      intro b e h
      by_cases hsw : starts_with pat (c :: t)
      · have hun : literal_search pat (c :: t) = some (0, pat.length) := by
          conv_lhs => rw [literal_search.eq_def]
          rw [if_pos hsw]
        rw [hun] at h
        injection h with hpair
        cases hpair
        exact List.length_pos.mpr hp
      · have hun : literal_search pat (c :: t)
            = (literal_search pat t).map (fun p => (p.1 + 1, p.2 + 1)) := by
          conv_lhs => rw [literal_search.eq_def]
          rw [if_neg hsw]
        rw [hun] at h
        cases hrec : literal_search pat t with
        | none => rw [hrec] at h; exact Option.noConfusion h
        | some p =>
            rw [hrec] at h
            simp at h
            omega

lemma add_match_formatting_total (emphasis_color : Str) (search : ReSearch)
    (hpos : ∀ t b e, search t = some (b, e) → 0 < e) :
    ∀ fuel s, s.length < fuel →
      ∃ out, add_match_formatting emphasis_color search fuel s = some out
        ∧ Wrapped emphasis_color search s out := by
  intro fuel
  induction fuel with
  | zero => intro s h; exact absurd h (by omega)
  | succ f ih =>
      intro s hs
      cases hre : search s with
      | none =>
          exact ⟨s, by rw [add_match_formatting_succ, hre], Wrapped.nomatch s hre⟩
      | some p =>
          obtain ⟨b, e⟩ := p
          by_cases hrest : 0 < (s.drop e).length
          · have hepos : 0 < e := hpos s b e hre
            have hlen : (s.drop e).length < f := by
              have h2 : (s.drop e).length = s.length - e := List.length_drop _ _
              omega
            obtain ⟨out, hout, hw⟩ := ih (s.drop e) hlen
            refine ⟨_, ?_, Wrapped.step s b e out hre hrest hw⟩
            rw [add_match_formatting_succ, hre]
            dsimp only
            rw [if_pos hrest, hout]
            rfl
          · refine ⟨s, ?_, Wrapped.final s b e hre (by omega)⟩
            rw [add_match_formatting_succ, hre]
            dsimp only
            rw [if_neg hrest]

/-- C9 amended: for every input and every `re.search` oracle whose
matches always have a positive end offset (as holds for any pattern that
cannot match the empty string — e.g. any non-empty literal — but fails
for zero-width-matching regexes like `""` or `"x*"`, on which the source
recurses unboundedly), `add_match_formatting` terminates (fuel one more
than the input length suffices) and returns a single output string in
which every non-overlapping match is wrapped in emphasis markup and the
non-matching segments are unchanged — except that a final match ending
exactly at the end of the input is left unwrapped. -/
theorem add_match_formatting_amended (emphasis_color : Str) (search : ReSearch)
    (s : Str) (hpos : ∀ t b e, search t = some (b, e) → 0 < e) :
    ∃ out, add_match_formatting emphasis_color search (s.length + 1) s = some out
      ∧ Wrapped emphasis_color search s out :=
  add_match_formatting_total emphasis_color search hpos (s.length + 1) s (by omega)

theorem add_match_formatting_amended_witness :
    ∃ out, add_match_formatting "blue".toList (literal_search ['b']) 3 ['a', 'b']
        = some out
      ∧ Wrapped "blue".toList (literal_search ['b']) ['a', 'b'] out :=
  add_match_formatting_amended "blue".toList (literal_search ['b']) ['a', 'b']
    (literal_search_end_pos ['b'] (by decide))

example : apply_tag_ops [] 3 [TagOp.add ['a'], TagOp.add ['b'], TagOp.add ['a'],
    TagOp.remove ['b']] = [(3, [['a']])] := by decide

example : apply_tag_ops [] 3 [TagOp.add ['a'], TagOp.remove ['a']] = [] := by decide
